import Mathlib

/-!
Shallow embedding of `src/net/sched/debug/sch_fq_codel_cuckoo_bitmask.c`:
the cuckoo-hashed flow classifier with its two-level empty-slot bitmask,
the fat-flow drop path, the drain-time hashtable cleanup performed by
`fq_codel_dequeue`, and the reset/init/configuration code that the claims
refer to.

Machine integers are modelled as `Nat` with explicit `% 2^32` where 32-bit
truncation matters; the hashtable is modelled as a total function
`Int → Nat` so that the signed `int temp_index` arithmetic of
`cuckoo_rehash` (which can produce the index `-1`) is representable.
External kernel primitives (`skb_get_hash`, `skb_get_hash_perturb`) are
modelled as fields of the packet record: `skb_get_hash` is the stored
32-bit flow hash and `skb_get_hash_perturb` is an arbitrary seed-indexed
hash carried by the packet.
-/

/-- 2^32, the modulus of the kernel's `u32` arithmetic. -/
def U32 : Nat := 2 ^ 32

/-- A packet (`struct sk_buff` as far as this scheduler observes it):
its flow hash, its `skb->priority` word, `qdisc_pkt_len`, the
`truesize`-derived memory footprint stored in the codel control block,
and the seed-indexed perturbed hash used by the two cuckoo hash
functions. -/
structure Packet where
  flow_hash : Nat
  priority : Nat
  pkt_len : Nat
  mem_usage : Nat
  hash_perturb : Nat → Nat

/-- `skb_get_hash`, truncated to `u32`. -/
def skb_get_hash (skb : Packet) : Nat := skb.flow_hash % U32

/-- `skb_get_hash_perturb(skb, seed)`, truncated to `u32`. -/
def skb_get_hash_perturb (skb : Packet) (seed : Nat) : Nat :=
  skb.hash_perturb seed % U32

/-- `reciprocal_scale(val, ep_ro) = ((u64)val * ep_ro) >> 32` on `u32`
inputs. -/
def reciprocal_scale (val ep_ro : Nat) : Nat :=
  (val % U32) * (ep_ro % U32) / U32

/-- The state of `struct fq_codel_sched_data` (plus the qdisc counters
`sch->q.qlen`, `sch->qstats.backlog`, `sch->qstats.drops` that the
embedded functions update).  Per-flow queues are the FIFO lists of
packets; `flow_dropped` is the per-flow `dropped` counter. -/
structure FqState where
  flows_cnt : Nat
  hashtable : Int → Nat
  random_seed : Nat → Nat
  empty_flow_mask : Nat → Nat
  flow_mask_index : Nat
  flows_queue : Nat → List Packet
  backlogs : Nat → Nat
  memory_usage : Nat
  qstats_drops : Nat
  qstats_backlog : Nat
  qlen : Nat
  flow_dropped : Nat → Nat
  drop_batch_size : Nat

/-- `ffs` (find-first-set, 1-based index of the least significant set
bit, 0 when the argument is 0) computed over at most `f` low bits. -/
def ffsFuel : Nat → Nat → Nat
  | 0, _ => 0
  | f + 1, x => if x = 0 then 0 else if x % 2 = 1 then 1 else ffsFuel f (x / 2) + 1

/-- `ffs` on a `u32` value. -/
def ffs32 (x : Nat) : Nat := ffsFuel 32 (x % U32)

/-- `get_next_empty_flow` (lines 106-114): pick the zone from
`flow_mask_index` with `32 - ffs`, then the bit inside
`empty_flow_mask[zone]` the same way; returns `0` when the first-level
mask has no set bit. -/
def get_next_empty_flow (q : FqState) : Nat :=
  if ffs32 q.flow_mask_index = 0 then 0
  else
    let right_most_set_zone := 32 - ffs32 q.flow_mask_index
    right_most_set_zone * 32 + (32 - ffs32 (q.empty_flow_mask right_most_set_zone))

/-- `mark_flow_as_empty` (lines 120-126): set bit `32-(idx/32+1)` of
`flow_mask_index` and bit `32-(idx%32+1)` of `empty_flow_mask[idx/32]`. -/
def mark_flow_as_empty (q : FqState) (idx : Nat) : FqState :=
  { q with
    flow_mask_index := q.flow_mask_index ||| 2 ^ (32 - (idx / 32 + 1)),
    empty_flow_mask := fun g =>
      if g = idx / 32 then q.empty_flow_mask g ||| 2 ^ (32 - (idx % 32 + 1))
      else q.empty_flow_mask g }

/-- `mark_flow_as_non_empty` (lines 132-139): clear the slot's bit in its
word; if the word becomes zero, clear the word's bit in
`flow_mask_index`.  `&= ~(1 << k)` on a `u32` is `&&& (2^32 - 1 - 2^k)`. -/
def mark_flow_as_non_empty (q : FqState) (idx : Nat) : FqState :=
  let w := q.empty_flow_mask (idx / 32) &&& (U32 - 1 - 2 ^ (32 - (idx % 32 + 1)))
  { q with
    empty_flow_mask := fun g => if g = idx / 32 then w else q.empty_flow_mask g,
    flow_mask_index :=
      if w = 0 then q.flow_mask_index &&& (U32 - 1 - 2 ^ (32 - (idx / 32 + 1)))
      else q.flow_mask_index }

/-- `fq_codel_hash_modified` (lines 149-154):
`flows_cnt*table_num + reciprocal_scale(skb_get_hash_perturb(skb, random_seed[table_num]), flows_cnt)`. -/
def fq_codel_hash_modified (q : FqState) (skb : Packet) (table_num : Nat) : Nat :=
  q.flows_cnt * table_num +
    reciprocal_scale (skb_get_hash_perturb skb (q.random_seed table_num)) q.flows_cnt

/-- The loop of `cuckoo_rehash` (lines 163-193).  `i` is the C loop
counter (incremented once more in the middle of the body); `tbl` is the
hashtable being mutated.  Returns the final hashtable, the list of
hashtable indices accessed (each `temp_index = fq_codel_hash_modified(...) - 1`,
as a signed int), and the number of `swap` operations performed. -/
def cuckoo_rehash_loop (q : FqState) (value_to_insert : Nat) (skb : Packet) (i : Nat)
    (tbl : Int → Nat) : (Int → Nat) × List Int × Nat :=
  if _hi : i < q.flows_cnt then
    let t0 : Int := (fq_codel_hash_modified q skb 0 : Int) - 1
    if tbl t0 = 0 then (Function.update tbl t0 value_to_insert, [t0], 0)
    else
      let v1 := tbl t0
      let tbl1 := Function.update tbl t0 value_to_insert
      if _h1 : i + 1 ≥ q.flows_cnt then (tbl1, [t0], 1)
      else
        match (q.flows_queue (v1 - 1)).head? with
        | none => (tbl1, [t0], 1)
        | some skb1 =>
          let t1 : Int := (fq_codel_hash_modified q skb1 1 : Int) - 1
          if tbl1 t1 = 0 then (Function.update tbl1 t1 v1, [t0, t1], 1)
          else
            let v2 := tbl1 t1
            let tbl2 := Function.update tbl1 t1 v1
            match (q.flows_queue (v2 - 1)).head? with
            | none => (tbl2, [t0, t1], 2)
            | some skb2 =>
              let r := cuckoo_rehash_loop q v2 skb2 (i + 2) tbl2
              (r.1, t0 :: t1 :: r.2.1, r.2.2 + 2)
  else (tbl, [], 0)
termination_by q.flows_cnt - i
decreasing_by omega

/-- `cuckoo_rehash(q, skb, value_to_insert)` (lines 157-194): run the
displacement loop on the current hashtable starting at `i = 0`. -/
def cuckoo_rehash (q : FqState) (skb : Packet) (value_to_insert : Nat) :
    (Int → Nat) × List Int × Nat :=
  cuckoo_rehash_loop q value_to_insert skb 0 q.hashtable

/-- Store `v` into `hashtable[i]`. -/
def set_table (q : FqState) (i : Int) (v : Nat) : FqState :=
  { q with hashtable := Function.update q.hashtable i v }

/-- `fq_codel_cuckoo_hash` (lines 197-281): the four-way decision table
on `(hashtable[hash1], hashtable[hash2])`, with stale-head reuse, head
flow-hash matching, allocation via `get_next_empty_flow() + 1`, and
cuckoo displacement in the both-occupied case.  Returns the value the C
function returns together with the updated state. -/
def fq_codel_cuckoo_hash (q : FqState) (skb : Packet) : Nat × FqState :=
  let hash1 : Int := (fq_codel_hash_modified q skb 0 : Int)
  let hash2 : Int := (fq_codel_hash_modified q skb 1 : Int)
  if q.hashtable hash1 = 0 ∧ q.hashtable hash2 = 0 then
    let v := get_next_empty_flow q + 1
    (v, set_table q hash1 v)
  else if q.hashtable hash1 ≠ 0 ∧ q.hashtable hash2 = 0 then
    let idx := q.hashtable hash1 - 1
    match (q.flows_queue idx).head? with
    | none => (q.hashtable hash1, q)
    | some h =>
      if skb_get_hash h = skb_get_hash skb then (q.hashtable hash1, q)
      else
        let v := get_next_empty_flow q + 1
        (v, set_table q hash2 v)
  else if q.hashtable hash1 = 0 ∧ q.hashtable hash2 ≠ 0 then
    let idx := q.hashtable hash2 - 1
    match (q.flows_queue idx).head? with
    | none => (q.hashtable hash2, q)
    | some h =>
      if skb_get_hash h = skb_get_hash skb then (q.hashtable hash2, q)
      else
        let v := get_next_empty_flow q + 1
        (v, set_table q hash1 v)
  else
    let idx := q.hashtable hash1 - 1
    let idx2 := q.hashtable hash2 - 1
    match (q.flows_queue idx).head?, (q.flows_queue idx2).head? with
    | none, _ => (q.hashtable hash1, q)
    | some _, none => (q.hashtable hash2, q)
    | some h, some h2 =>
      if skb_get_hash h = skb_get_hash skb then (q.hashtable hash1, q)
      else if skb_get_hash h2 = skb_get_hash skb then (q.hashtable hash2, q)
      else
        let v := get_next_empty_flow q + 1
        (v, { q with hashtable := (cuckoo_rehash q skb v).1 })

/-- `TC_H_MAJ`: the upper 16 bits of a 32-bit handle. -/
def TC_H_MAJ (h : Nat) : Nat := h &&& 0xFFFF0000

/-- `TC_H_MIN`: the lower 16 bits of a 32-bit handle. -/
def TC_H_MIN (h : Nat) : Nat := h &&& 0xFFFF

/-- `fq_codel_classify` (lines 284-325).  The direct-priority branch
returns `TC_H_MIN(skb->priority)` untouched when the major number equals
the qdisc handle and the minor number is in `[1, flows_cnt]`.  With no
external filter installed the internal cuckoo classifier runs.  An
installed external filter (`tcf_classify`, out of scope per the spec) is
abstracted as a function giving the classification result whose minor id
is used when `≤ flows_cnt`, with `0` (drop/bypass and the
STOLEN/QUEUED/TRAP/SHOT action results) otherwise; it never touches the
scheduler state. -/
def fq_codel_classify (q : FqState) (handle : Nat) (filter : Option (Packet → Nat))
    (skb : Packet) : Nat × FqState :=
  if TC_H_MAJ skb.priority = handle ∧ 0 < TC_H_MIN skb.priority ∧
      TC_H_MIN skb.priority ≤ q.flows_cnt then
    (TC_H_MIN skb.priority, q)
  else
    match filter with
    | none => fq_codel_cuckoo_hash q skb
    | some f =>
      (if TC_H_MIN (f skb) ≤ q.flows_cnt then TC_H_MIN (f skb) else 0, q)

/-- Total byte length (`qdisc_pkt_len`) of a packet list. -/
def sum_pkt_len (l : List Packet) : Nat := (l.map Packet.pkt_len).sum

/-- Total memory footprint (`get_codel_cb(skb)->mem_usage`) of a packet
list. -/
def sum_pkt_mem (l : List Packet) : Nat := (l.map Packet.mem_usage).sum

/-- The fat-flow scan of `fq_codel_drop` (lines 372-377): iterate
`i = 0, …, n-1`, keeping the maximum backlog and the first index
attaining it (the update fires only on a strict increase). -/
def fq_codel_drop_scan : Nat → (Nat → Nat) → Nat × Nat
  | 0, _ => (0, 0)
  | n + 1, b =>
    let r := fq_codel_drop_scan n b
    if b n > r.1 then (b n, n) else r

/-- The drop do/while loop of `fq_codel_drop` (lines 385-390): pop the
head, accumulate dropped packets `i`, bytes `len` and memory `mem`, and
continue while `++i < max_packets && len < threshold`.  (The C
`dequeue_head` dereferences a null head if the queue runs out; that
situation is unreachable under the backlog-sum invariant, and the model
simply stops there.) -/
def fq_codel_drop_loop (max_packets threshold : Nat) :
    List Packet → Nat → Nat → Nat → List Packet × Nat × Nat × Nat
  | [], i, len, mem => ([], i, len, mem)
  | skb :: rest, i, len, mem =>
    let i' := i + 1
    let len' := len + skb.pkt_len
    let mem' := mem + skb.mem_usage
    if i' < max_packets ∧ len' < threshold then
      fq_codel_drop_loop max_packets threshold rest i' len' mem'
    else (rest, i', len', mem')

/-- `fq_codel_drop(sch, max_packets, to_free)` (lines 353-399) with
`max_packets = q->drop_batch_size` as passed by `fq_codel_enqueue`
(line 454): pick the fat flow by linear scan, set
`threshold = maxbacklog >> 1`, run the drop loop from the flow's head,
then update `flow->dropped`, `backlogs[idx]`, `memory_usage`,
`qstats.drops`, `qstats.backlog` and `q.qlen`; the dropped flow index is
returned. -/
def fq_codel_drop (q : FqState) : Nat × FqState :=
  let r := fq_codel_drop_scan q.flows_cnt q.backlogs
  let idx := r.2
  let threshold := r.1 / 2
  let l := fq_codel_drop_loop q.drop_batch_size threshold (q.flows_queue idx) 0 0 0
  (idx,
   { q with
     flows_queue := fun j => if j = idx then l.1 else q.flows_queue j,
     flow_dropped := fun j => if j = idx then q.flow_dropped j + l.2.1 else q.flow_dropped j,
     backlogs := fun j => if j = idx then q.backlogs j - l.2.2.1 else q.backlogs j,
     memory_usage := q.memory_usage - l.2.2.2,
     qstats_drops := q.qstats_drops + l.2.1,
     qstats_backlog := q.qstats_backlog - l.2.2.1,
     qlen := q.qlen - l.2.1 })

/-- The drain cleanup block of `fq_codel_dequeue` (lines 569-591), run
when the dequeue of `skb` left the selected flow slot `s`
(`empty_id = flow - &q->flows[0]`) with a null head: mark the slot empty
in the bitmask, recompute `h1`/`h2` from the just-dequeued packet, and
zero `hashtable[h1]` and `hashtable[h2]` when they still hold
`empty_id + 1`. -/
def fq_codel_dequeue_drain (q : FqState) (s : Nat) (skb : Packet) : FqState :=
  let q1 := mark_flow_as_empty q s
  let h1 : Int := (fq_codel_hash_modified q1 skb 0 : Int)
  let h2 : Int := (fq_codel_hash_modified q1 skb 1 : Int)
  let q2 := if q1.hashtable h1 = s + 1 then set_table q1 h1 0 else q1
  if q2.hashtable h2 = s + 1 then set_table q2 h2 0 else q2

/-- `fq_codel_reset` (lines 606-632) restricted to the modelled state:
queues purged, `backlogs` and the hashtable zeroed, and — because the
code uses byte-wise `memset(..., 1, ...)` on 32-bit words — every word of
`empty_flow_mask` and `flow_mask_index` itself set to `0x01010101`
(each of the four bytes becomes `0x01`), not to all-ones. -/
def fq_codel_reset (q : FqState) : FqState :=
  { q with
    flows_queue := fun _ => [],
    backlogs := fun _ => 0,
    hashtable := fun _ => 0,
    empty_flow_mask := fun _ => 0x01010101,
    flow_mask_index := 0x01010101,
    qlen := 0,
    qstats_backlog := 0,
    memory_usage := 0 }

/-- The state produced by `fq_codel_init` (lines 734-830) with no FLOWS
override: `flows_cnt = 1024`, `drop_batch_size = 64`, zeroed tables and
counters, and the same byte-wise `memset(..., 1, ...)` initialisation of
the bitmask as in reset (lines 802-806), parametrised by the two random
seeds. -/
def fq_codel_init_state (seed : Nat → Nat) : FqState :=
  { flows_cnt := 1024
    hashtable := fun _ => 0
    random_seed := seed
    empty_flow_mask := fun _ => 0x01010101
    flow_mask_index := 0x01010101
    flows_queue := fun _ => []
    backlogs := fun _ => 0
    memory_usage := 0
    qstats_drops := 0
    qstats_backlog := 0
    qlen := 0
    flow_dropped := fun _ => 0
    drop_batch_size := 64 }

/-- The `TCA_FQ_CODEL_DROP_BATCH_SIZE` assignment of `fq_codel_change`
(lines 700-701): `q->drop_batch_size = min(1U, nla_get_u32(...))`. -/
def fq_codel_change_drop_batch_size (x : Nat) : Nat := min 1 (x % U32)

/-- Invariant relating the two bitmask levels in the direction the code
relies on when searching: whenever a bit of `flow_mask_index` is set,
the second-level word it covers (bit `b` covers group `31 - b`, the
convention of `mark_flow_as_empty`/`mark_flow_as_non_empty`) is
non-zero. -/
def mask_index_inv (q : FqState) : Prop :=
  ∀ b, b < 32 → (q.flow_mask_index % U32).testBit b = true →
    q.empty_flow_mask (31 - b) % U32 ≠ 0

/-- The spec's two-level bitmask invariant (spec §3 invariant 5 and §8
invariant 3): the first-level bit covering group `g` (bit `31 - g` under
the code's MSB-first convention) is set exactly when `empty_flow_mask[g]`
is non-zero. -/
def mask_index_iff (q : FqState) : Prop :=
  ∀ g, g < 32 → ((q.flow_mask_index).testBit (31 - g) = true ↔ q.empty_flow_mask g ≠ 0)

/-- Hashtable well-formedness: every entry is either 0 (empty) or a
flow-slot reference `v` with `1 ≤ v ≤ flows_cnt`. -/
def hashtable_inv (q : FqState) : Prop :=
  ∀ i : Int, q.hashtable i = 0 ∨ (1 ≤ q.hashtable i ∧ q.hashtable i ≤ q.flows_cnt)

/-- A packet with zeroed hashes (its perturbed hash is 0 for every
seed). -/
def packet0 : Packet :=
  { flow_hash := 0, priority := 0, pkt_len := 100, mem_usage := 100,
    hash_perturb := fun _ => 0 }

/-- The freshly initialised qdisc state (default `flows_cnt = 1024`),
with both random seeds 0. -/
def qInit : FqState := fq_codel_init_state fun _ => 0

/-- The freshly initialised state when `TCA_FQ_CODEL_FLOWS = 4` was
configured before the tables were allocated (allowed by
`fq_codel_change`, lines 663-670); the bitmask initialisation is the
same fixed 32-word `memset` regardless of `flows_cnt`. -/
def qN4 : FqState := { qInit with flows_cnt := 4 }

/-- A state whose empty bitmask has no set bit: every flow slot is
occupied. -/
def qFull : FqState :=
  { qInit with empty_flow_mask := fun _ => 0, flow_mask_index := 0 }

/-- A state in which exactly flow slot 0 is empty: bit `31` of word 0
(the code's bit for slot 0) and bit `31` of `flow_mask_index` (the
code's bit for group 0) are set. -/
def qSlot0Free : FqState :=
  { qInit with
    empty_flow_mask := fun g => if g = 0 then 2 ^ 31 else 0,
    flow_mask_index := 2 ^ 31 }

/-- A state in which hashtable bucket 5 holds a reference to flow slot 0
(value `1`), e.g. installed there earlier by `cuckoo_rehash` or by a
packet with different hashes. -/
def qStale : FqState :=
  { qInit with hashtable := fun i => if i = 5 then 1 else 0 }

/-- A 2-byte packet with memory footprint 3. -/
def pkt2 : Packet :=
  { flow_hash := 0, priority := 0, pkt_len := 2, mem_usage := 3,
    hash_perturb := fun _ => 0 }

/-- A small over-budget scenario: two flows, flow 0 backlogged with two
2-byte packets (backlog 4), `drop_batch_size = 2`. -/
def qFat : FqState :=
  { qInit with
    flows_cnt := 2,
    drop_batch_size := 2,
    flows_queue := fun j => if j = 0 then [pkt2, pkt2] else [],
    backlogs := fun j => if j = 0 then 4 else 0 }

/-- A packet whose priority word has major number `0x00010000` and minor
number 1. -/
def packetPrio : Packet :=
  { flow_hash := 0, priority := 0x00010001, pkt_len := 100, mem_usage := 100,
    hash_perturb := fun _ => 0 }


theorem ffsFuel_le (f : Nat) : ∀ x, ffsFuel f x ≤ f := by
  induction f with
  | zero => intro x; simp [ffsFuel]
  | succ f ih =>
    intro x
    unfold ffsFuel
    split_ifs with h1 h2
    · omega
    · omega
    · have := ih (x / 2); omega

theorem ffsFuel_pos_testBit (f : Nat) : ∀ x, x ≠ 0 → x < 2 ^ f →
    1 ≤ ffsFuel f x ∧ x.testBit (ffsFuel f x - 1) = true := by
  induction f with
  | zero => intro x hx hlt; simp at hlt; omega
  | succ f ih =>
    intro x hx hlt
    unfold ffsFuel
    rw [if_neg hx]
    by_cases h2 : x % 2 = 1
    · rw [if_pos h2]
      exact ⟨le_refl 1, by simp [Nat.testBit_zero, h2]⟩
    · rw [if_neg h2]
      have hx2 : x / 2 ≠ 0 := by omega
      have hlt2 : x / 2 < 2 ^ f := by
        rw [pow_succ] at hlt; omega
      obtain ⟨hpos, hb⟩ := ih (x / 2) hx2 hlt2
      refine ⟨by omega, ?_⟩
      have harith : ffsFuel f (x / 2) + 1 - 1 = (ffsFuel f (x / 2) - 1) + 1 := by omega
      rw [harith, Nat.testBit_add_one]
      exact hb

theorem ffs32_le (x : Nat) : ffs32 x ≤ 32 := ffsFuel_le 32 (x % U32)

theorem ffs32_spec (x : Nat) (hx : x % U32 ≠ 0) :
    1 ≤ ffs32 x ∧ (x % U32).testBit (ffs32 x - 1) = true :=
  ffsFuel_pos_testBit 32 (x % U32) hx (Nat.mod_lt x (by norm_num [U32]))

theorem get_next_empty_flow_lt (q : FqState) (h : mask_index_inv q) :
    get_next_empty_flow q < 1024 := by
  unfold get_next_empty_flow
  split_ifs with h0
  · norm_num
  · dsimp only
    have hm : q.flow_mask_index % U32 ≠ 0 := by
      intro hz
      exact h0 (by rw [ffs32, hz]; rfl)
    obtain ⟨h1, hb⟩ := ffs32_spec q.flow_mask_index hm
    have h32 := ffs32_le q.flow_mask_index
    have hw := h (ffs32 q.flow_mask_index - 1) (by omega) hb
    have hzone : 31 - (ffs32 q.flow_mask_index - 1) = 32 - ffs32 q.flow_mask_index := by
      omega
    rw [hzone] at hw
    obtain ⟨hw1, _⟩ := ffs32_spec (q.empty_flow_mask (32 - ffs32 q.flow_mask_index)) hw
    have hw32 := ffs32_le (q.empty_flow_mask (32 - ffs32 q.flow_mask_index))
    have hz31 : 32 - ffs32 q.flow_mask_index ≤ 31 := by omega
    omega

theorem reciprocal_scale_lt (val ep : Nat) (h1 : 0 < ep) (h2 : ep < U32) :
    reciprocal_scale val ep < ep := by
  unfold reciprocal_scale
  rw [Nat.mod_eq_of_lt h2]
  have hv : val % U32 < U32 := Nat.mod_lt _ (by norm_num [U32])
  rw [Nat.div_lt_iff_lt_mul (by norm_num [U32] : 0 < U32)]
  calc (val % U32) * ep < U32 * ep := mul_lt_mul_of_pos_right hv h1
    _ = ep * U32 := Nat.mul_comm _ _

theorem fq_codel_hash_modified_bounds (q : FqState) (skb : Packet) (t : Nat)
    (h1 : 0 < q.flows_cnt) (h2 : q.flows_cnt < U32) :
    q.flows_cnt * t ≤ fq_codel_hash_modified q skb t ∧
      fq_codel_hash_modified q skb t < q.flows_cnt * (t + 1) := by
  unfold fq_codel_hash_modified
  have hrs := reciprocal_scale_lt (skb_get_hash_perturb skb (q.random_seed t)) q.flows_cnt h1 h2
  have hmul : q.flows_cnt * (t + 1) = q.flows_cnt * t + q.flows_cnt := by ring
  omega

theorem fq_codel_cuckoo_hash_bounds (q : FqState) (skb : Packet)
    (hN : q.flows_cnt = 1024) (hmask : mask_index_inv q) (htbl : hashtable_inv q) :
    1 ≤ (fq_codel_cuckoo_hash q skb).1 ∧ (fq_codel_cuckoo_hash q skb).1 ≤ q.flows_cnt := by
  have hget := get_next_empty_flow_lt q hmask
  have ht1 := htbl ((fq_codel_hash_modified q skb 0 : Nat) : Int)
  have ht2 := htbl ((fq_codel_hash_modified q skb 1 : Nat) : Int)
  unfold fq_codel_cuckoo_hash
  dsimp only
  split
  · omega
  · split
    · split
      · omega
      · split
        · omega
        · omega
    · split
      · split
        · omega
        · split
          · omega
          · omega
      · split
        · omega
        · omega
        · split
          · omega
          · split
            · omega
            · omega

theorem cuckoo_rehash_loop_swap_le (q : FqState) :
    ∀ fuel i value skb tbl, q.flows_cnt ≤ i + fuel →
      (cuckoo_rehash_loop q value skb i tbl).2.2 ≤ q.flows_cnt - i := by
  intro fuel
  induction fuel with
  | zero =>
    intro i value skb tbl hf
    rw [cuckoo_rehash_loop, dif_neg (by omega : ¬ i < q.flows_cnt)]
    simp
  | succ f ih =>
    intro i value skb tbl hf
    rw [cuckoo_rehash_loop]
    split
    · dsimp only
      split
      · simp
      · split
        · rename_i hi _ hge
          simp
          omega
        · split
          · rename_i hi _ hge _
            simp
            omega
          · split
            · rename_i hi _ hge _ _
              simp
              omega
            · split
              · rename_i hi _ hge _ _ _
                simp
                omega
              · dsimp only
                exact le_trans (Nat.add_le_add_right (ih _ _ _ _ (by omega)) 2) (by omega)
    · simp

theorem sum_pkt_len_nil : sum_pkt_len [] = 0 := rfl

theorem sum_pkt_len_cons (p : Packet) (l : List Packet) :
    sum_pkt_len (p :: l) = p.pkt_len + sum_pkt_len l := by
  simp [sum_pkt_len]

theorem sum_pkt_mem_cons (p : Packet) (l : List Packet) :
    sum_pkt_mem (p :: l) = p.mem_usage + sum_pkt_mem l := by
  simp [sum_pkt_mem]

theorem fq_codel_drop_scan_spec (b : Nat → Nat) :
    ∀ n, 0 < n →
      (fq_codel_drop_scan n b).2 < n ∧
      b (fq_codel_drop_scan n b).2 = (fq_codel_drop_scan n b).1 ∧
      ∀ j, j < n → b j ≤ (fq_codel_drop_scan n b).1 := by
  intro n
  induction n with
  | zero => omega
  | succ n ih =>
    intro _
    rcases Nat.eq_zero_or_pos n with hn | hn
    · subst hn
      simp only [fq_codel_drop_scan]
      split_ifs with hgt
      · refine ⟨by omega, rfl, ?_⟩
        intro j hj
        have : j = 0 := by omega
        simp [this]
      · refine ⟨by simp [fq_codel_drop_scan], by simp [fq_codel_drop_scan]; omega, ?_⟩
        intro j hj
        have : j = 0 := by omega
        simp [this, fq_codel_drop_scan]
        omega
    · obtain ⟨h1, h2, h3⟩ := ih hn
      simp only [fq_codel_drop_scan]
      split_ifs with hgt
      · refine ⟨by omega, rfl, ?_⟩
        intro j hj
        by_cases hj2 : j < n
        · have := h3 j hj2; simp; omega
        · have : j = n := by omega
          simp [this]
      · refine ⟨by omega, h2, ?_⟩
        intro j hj
        by_cases hj2 : j < n
        · exact h3 j hj2
        · have : j = n := by omega
          subst this
          omega

theorem fq_codel_drop_loop_spec (maxp thr : Nat) :
    ∀ (queue : List Packet) (i len mem : Nat), queue ≠ [] → i < maxp →
      thr ≤ len + sum_pkt_len queue →
      ∃ d, 1 ≤ d ∧ i + d ≤ maxp ∧
        fq_codel_drop_loop maxp thr queue i len mem =
          (queue.drop d, i + d, len + sum_pkt_len (queue.take d),
            mem + sum_pkt_mem (queue.take d)) ∧
        (i + d = maxp ∨ thr ≤ len + sum_pkt_len (queue.take d)) ∧
        ∀ k, 1 ≤ k → k < d → i + k < maxp ∧ len + sum_pkt_len (queue.take k) < thr := by
  intro queue
  induction queue with
  | nil => intro i len mem h; exact absurd rfl h
  | cons p rest ih =>
    intro i len mem _ hi hthr
    rw [sum_pkt_len_cons] at hthr
    simp only [fq_codel_drop_loop]
    by_cases hc : i + 1 < maxp ∧ len + p.pkt_len < thr
    · rw [if_pos hc]
      have hrest : rest ≠ [] := by
        rintro rfl
        rw [sum_pkt_len_nil] at hthr
        omega
      obtain ⟨d, hd1, hd2, heq, hstop, hmin⟩ :=
        ih (i + 1) (len + p.pkt_len) (mem + p.mem_usage) hrest hc.1 (by omega)
      refine ⟨d + 1, by omega, by omega, ?_, ?_, ?_⟩
      · rw [heq]
        simp only [List.take_succ_cons, List.drop_succ_cons, sum_pkt_len_cons,
          sum_pkt_mem_cons, Prod.mk.injEq]
        refine ⟨trivial, by omega, by omega, by omega⟩
      · rcases hstop with hs | hs
        · left; omega
        · right
          rw [List.take_succ_cons, sum_pkt_len_cons]
          omega
      · intro k hk1 hkd
        obtain ⟨k2, rfl⟩ : ∃ k2, k = k2 + 1 := ⟨k - 1, by omega⟩
        rw [List.take_succ_cons, sum_pkt_len_cons]
        rcases Nat.eq_zero_or_pos k2 with hk2 | hk2
        · subst hk2
          rw [List.take_zero, sum_pkt_len_nil]
          exact ⟨by omega, by omega⟩
        · have := hmin k2 hk2 (by omega)
          exact ⟨by omega, by omega⟩
    · rw [if_neg hc]
      refine ⟨1, le_refl 1, by omega, ?_, ?_, by omega⟩
      · simp only [List.take_succ_cons, List.take_zero, List.drop_succ_cons,
          List.drop_zero, sum_pkt_len_cons, sum_pkt_len_nil, sum_pkt_mem_cons,
          Prod.mk.injEq]
        refine ⟨trivial, trivial, by omega, ?_⟩
        have : sum_pkt_mem [] = 0 := rfl
        omega
      · rw [List.take_succ_cons, List.take_zero, sum_pkt_len_cons, sum_pkt_len_nil]
        omega

/-- C7: when an over-budget enqueue invokes the fat-flow drop
(`fq_codel_drop` with `max_packets = q->drop_batch_size`), the linear
scan of `backlogs` selects a slot `idx` carrying the maximum backlog,
packets are then dropped from that flow's head, stopping exactly when
the drop count reaches `drop_batch_size` or the dropped bytes reach the
half-backlog threshold `maxbacklog >> 1` (no earlier and no later), and
the flow's backlog, the global memory usage, the qdisc drop/backlog/qlen
counters and the flow's `dropped` counter are updated by exactly the
dropped amounts.  Hypotheses: a positive batch size, the backlog-sum
invariant (spec §8 invariant 1), and some flow being backlogged (true
whenever the queue is over its packet or memory budget). -/
theorem fq_codel_drop_spec (q : FqState)
    (hbatch : 0 < q.drop_batch_size)
    (hsum : ∀ i, i < q.flows_cnt → q.backlogs i = sum_pkt_len (q.flows_queue i))
    (hsome : ∃ j, j < q.flows_cnt ∧ 0 < q.backlogs j) :
    ∃ d,
      (fq_codel_drop q).1 < q.flows_cnt ∧
      (∀ j, j < q.flows_cnt → q.backlogs j ≤ q.backlogs (fq_codel_drop q).1) ∧
      1 ≤ d ∧ d ≤ q.drop_batch_size ∧
      (fq_codel_drop q).2.flows_queue (fq_codel_drop q).1 =
        (q.flows_queue (fq_codel_drop q).1).drop d ∧
      (d = q.drop_batch_size ∨
        q.backlogs (fq_codel_drop q).1 / 2 ≤
          sum_pkt_len ((q.flows_queue (fq_codel_drop q).1).take d)) ∧
      (∀ k, 1 ≤ k → k < d → k < q.drop_batch_size ∧
        sum_pkt_len ((q.flows_queue (fq_codel_drop q).1).take k) <
          q.backlogs (fq_codel_drop q).1 / 2) ∧
      (fq_codel_drop q).2.backlogs (fq_codel_drop q).1 =
        q.backlogs (fq_codel_drop q).1 -
          sum_pkt_len ((q.flows_queue (fq_codel_drop q).1).take d) ∧
      (fq_codel_drop q).2.memory_usage =
        q.memory_usage - sum_pkt_mem ((q.flows_queue (fq_codel_drop q).1).take d) ∧
      (fq_codel_drop q).2.qstats_drops = q.qstats_drops + d ∧
      (fq_codel_drop q).2.qstats_backlog =
        q.qstats_backlog - sum_pkt_len ((q.flows_queue (fq_codel_drop q).1).take d) ∧
      (fq_codel_drop q).2.qlen = q.qlen - d ∧
      (fq_codel_drop q).2.flow_dropped (fq_codel_drop q).1 =
        q.flow_dropped (fq_codel_drop q).1 + d := by
  obtain ⟨j, hj, hbj⟩ := hsome
  have hn : 0 < q.flows_cnt := by omega
  obtain ⟨hidx, hbidx, hmax⟩ := fq_codel_drop_scan_spec q.backlogs q.flows_cnt hn
  have hm1 : 0 < (fq_codel_drop_scan q.flows_cnt q.backlogs).1 :=
    lt_of_lt_of_le hbj (hmax j hj)
  have hqsum :
      sum_pkt_len (q.flows_queue (fq_codel_drop_scan q.flows_cnt q.backlogs).2) =
        (fq_codel_drop_scan q.flows_cnt q.backlogs).1 := by
    rw [← hsum _ hidx, hbidx]
  have hqne : q.flows_queue (fq_codel_drop_scan q.flows_cnt q.backlogs).2 ≠ [] := by
    intro hq
    rw [hq, sum_pkt_len_nil] at hqsum
    omega
  obtain ⟨d, hd1, hd2, heq, hstop, hmin⟩ :=
    fq_codel_drop_loop_spec q.drop_batch_size
      ((fq_codel_drop_scan q.flows_cnt q.backlogs).1 / 2)
      (q.flows_queue (fq_codel_drop_scan q.flows_cnt q.backlogs).2) 0 0 0 hqne hbatch
      (by rw [hqsum]; omega)
  refine ⟨d, ?_⟩
  have hfst : (fq_codel_drop q).1 = (fq_codel_drop_scan q.flows_cnt q.backlogs).2 := rfl
  have hsnd :
      (fq_codel_drop q).2 =
        { q with
          flows_queue := fun j2 => if j2 = (fq_codel_drop_scan q.flows_cnt q.backlogs).2
            then (q.flows_queue (fq_codel_drop_scan q.flows_cnt q.backlogs).2).drop d
            else q.flows_queue j2,
          flow_dropped := fun j2 => if j2 = (fq_codel_drop_scan q.flows_cnt q.backlogs).2
            then q.flow_dropped j2 + d else q.flow_dropped j2,
          backlogs := fun j2 => if j2 = (fq_codel_drop_scan q.flows_cnt q.backlogs).2
            then q.backlogs j2 -
              sum_pkt_len ((q.flows_queue (fq_codel_drop_scan q.flows_cnt q.backlogs).2).take d)
            else q.backlogs j2,
          memory_usage := q.memory_usage -
            sum_pkt_mem ((q.flows_queue (fq_codel_drop_scan q.flows_cnt q.backlogs).2).take d),
          qstats_drops := q.qstats_drops + d,
          qstats_backlog := q.qstats_backlog -
            sum_pkt_len ((q.flows_queue (fq_codel_drop_scan q.flows_cnt q.backlogs).2).take d),
          qlen := q.qlen - d } := by
    unfold fq_codel_drop
    dsimp only
    rw [heq]
    dsimp only
    simp only [Nat.zero_add]
  rw [hfst, hsnd]
  dsimp only
  have hmax2 : ∀ j2, j2 < q.flows_cnt →
      q.backlogs j2 ≤ q.backlogs (fq_codel_drop_scan q.flows_cnt q.backlogs).2 := by
    intro j2 hj2
    rw [hbidx]
    exact hmax j2 hj2
  refine ⟨hidx, hmax2, hd1, by omega, by simp, ?_, ?_, by simp, by simp, by simp,
    by simp, by simp, by simp⟩
  · rw [hbidx]
    omega
  · intro k hk1 hkd
    have := hmin k hk1 hkd
    rw [hbidx]
    exact ⟨by omega, by omega⟩

/-- Witness for `fq_codel_drop_spec`: concrete over-limit state `qFat`
(flow 0 holds two 2-byte packets, backlog 4, batch size 2); the drop
stops after one packet since 2 bytes ≥ 4 >> 1. -/
theorem fq_codel_drop_spec_witness :
    0 < qFat.drop_batch_size ∧
    (∀ i, i < qFat.flows_cnt → qFat.backlogs i = sum_pkt_len (qFat.flows_queue i)) ∧
    (∃ j, j < qFat.flows_cnt ∧ 0 < qFat.backlogs j) ∧
    (∃ d,
      (fq_codel_drop qFat).1 < qFat.flows_cnt ∧
      (∀ j, j < qFat.flows_cnt → qFat.backlogs j ≤ qFat.backlogs (fq_codel_drop qFat).1) ∧
      1 ≤ d ∧ d ≤ qFat.drop_batch_size ∧
      (fq_codel_drop qFat).2.flows_queue (fq_codel_drop qFat).1 =
        (qFat.flows_queue (fq_codel_drop qFat).1).drop d ∧
      (d = qFat.drop_batch_size ∨
        qFat.backlogs (fq_codel_drop qFat).1 / 2 ≤
          sum_pkt_len ((qFat.flows_queue (fq_codel_drop qFat).1).take d)) ∧
      (∀ k, 1 ≤ k → k < d → k < qFat.drop_batch_size ∧
        sum_pkt_len ((qFat.flows_queue (fq_codel_drop qFat).1).take k) <
          qFat.backlogs (fq_codel_drop qFat).1 / 2) ∧
      (fq_codel_drop qFat).2.backlogs (fq_codel_drop qFat).1 =
        qFat.backlogs (fq_codel_drop qFat).1 -
          sum_pkt_len ((qFat.flows_queue (fq_codel_drop qFat).1).take d) ∧
      (fq_codel_drop qFat).2.memory_usage =
        qFat.memory_usage - sum_pkt_mem ((qFat.flows_queue (fq_codel_drop qFat).1).take d) ∧
      (fq_codel_drop qFat).2.qstats_drops = qFat.qstats_drops + d ∧
      (fq_codel_drop qFat).2.qstats_backlog =
        qFat.qstats_backlog - sum_pkt_len ((qFat.flows_queue (fq_codel_drop qFat).1).take d) ∧
      (fq_codel_drop qFat).2.qlen = qFat.qlen - d ∧
      (fq_codel_drop qFat).2.flow_dropped (fq_codel_drop qFat).1 =
        qFat.flow_dropped (fq_codel_drop qFat).1 + d) :=
  ⟨by decide, by decide, ⟨0, by decide⟩,
    fq_codel_drop_spec qFat (by decide) (by decide) ⟨0, by decide⟩⟩

/-- C1 is falsified as stated: the slot range depends on `flows_cnt`
being 1024.  With `flows_cnt = 4` configured (state `qN4`, fresh tables)
the internal cuckoo classifier — reached because no filter is installed
and the packet's priority does not match the handle — returns 1024,
i.e. flow-slot index 1023, which is not in `[0, 4)`: the fixed 32x32
bitmask hands out slot 1023 regardless of `flows_cnt`. -/
theorem fq_codel_classify_slot_range_counterexample :
    (fq_codel_classify qN4 0 none packet0).1 = 1024 ∧
      ¬((fq_codel_classify qN4 0 none packet0).1 - 1 < qN4.flows_cnt) := by
  refine ⟨by decide, by decide⟩

/-- C1 (amended): for `flows_cnt = 1024` — the number of slots the fixed
two-level 32x32 bitmask actually covers — and any state satisfying the
standing invariants (`mask_index_inv`: a set first-level bit covers a
non-zero word; `hashtable_inv`: entries are 0 or valid slot references),
classification through the internal cuckoo classifier (no filter, no
priority match) never fails: it returns `r ≥ 1`, and the flow-slot index
`r - 1` lies in `[0, flows_cnt)`; in the worst case `r` is an existing
flow's entry (a collision). -/
theorem fq_codel_classify_cuckoo_slot_range (q : FqState) (handle : Nat) (skb : Packet)
    (hN : q.flows_cnt = 1024) (hmask : mask_index_inv q) (htbl : hashtable_inv q)
    (hprio : ¬(TC_H_MAJ skb.priority = handle ∧ 0 < TC_H_MIN skb.priority ∧
        TC_H_MIN skb.priority ≤ q.flows_cnt)) :
    1 ≤ (fq_codel_classify q handle none skb).1 ∧
      (fq_codel_classify q handle none skb).1 - 1 < q.flows_cnt := by
  have hbounds := fq_codel_cuckoo_hash_bounds q skb hN hmask htbl
  unfold fq_codel_classify
  rw [if_neg hprio]
  dsimp only
  omega

/-- Witness for `fq_codel_classify_cuckoo_slot_range` at the fresh
default-initialised state (`flows_cnt = 1024`) and a zero-hash packet. -/
theorem fq_codel_classify_cuckoo_slot_range_witness :
    qInit.flows_cnt = 1024 ∧ mask_index_inv qInit ∧ hashtable_inv qInit ∧
      (1 ≤ (fq_codel_classify qInit 1 none packet0).1 ∧
        (fq_codel_classify qInit 1 none packet0).1 - 1 < qInit.flows_cnt) :=
  ⟨rfl, by unfold mask_index_inv; decide, fun i => Or.inl rfl,
    fq_codel_classify_cuckoo_slot_range qInit 1 packet0 rfl
      (by unfold mask_index_inv; decide) (fun i => Or.inl rfl) (by decide)⟩

/-- C2 is contradicted by the code: on the fresh default state and a
packet whose first cuckoo hash is 0 (`H0(pkt) mod N = 0`), the
displacement loop's only accessed bucket index is
`temp_index = fq_codel_hash_modified(...) - 1 = -1` — not the designated
bucket `table[H0 mod N] = table[0]` and outside the table bounds
`[0, 2N)` — and the value is written there (`hashtable[-1]`, an
out-of-bounds write in the C code). -/
theorem cuckoo_rehash_out_of_bounds_access :
    (cuckoo_rehash qInit packet0 1).2.1 = [(-1 : Int)] ∧
      (∀ j ∈ (cuckoo_rehash qInit packet0 1).2.1,
        ¬(0 ≤ j ∧ j < 2 * (qInit.flows_cnt : Int))) ∧
      (cuckoo_rehash qInit packet0 1).1 (-1) = 1 := by
  rw [cuckoo_rehash, cuckoo_rehash_loop]
  refine ⟨by decide, by decide, by decide⟩

/-- C3 is contradicted by the code: `fq_codel_reset` (and identically
`fq_codel_init`) initialises the bitmask with byte-wise
`memset(..., 1, ...)`, so each 32-bit word becomes `0x01010101`, in which
e.g. bit 1 is clear — not "every bit set"; likewise `flow_mask_index`'s
bit 31 (the bit covering the non-zero word 0 under the mark functions'
convention) is clear. -/
theorem fq_codel_reset_bitmask_not_all_set :
    (fq_codel_reset qFull).empty_flow_mask 0 = 0x01010101 ∧
      ((fq_codel_reset qFull).empty_flow_mask 0).testBit 1 = false ∧
      (fq_codel_reset qFull).empty_flow_mask 0 ≠ 0 ∧
      ((fq_codel_reset qFull).flow_mask_index).testBit 31 = false ∧
      qInit.empty_flow_mask 0 = 0x01010101 ∧
      (qInit.flow_mask_index).testBit 31 = false := by
  refine ⟨by decide, by decide, by decide, by decide, by decide, by decide⟩

/-- C4 is contradicted by the code at its own initial state: immediately
after `fq_codel_reset` the two-level iff invariant fails — e.g. for
group 0, `empty_flow_mask[0] = 0x01010101 ≠ 0` while its covering
`flow_mask_index` bit (bit 31) is clear, because the byte-wise
`memset(..., 1, ...)` sets only bits 0/8/16/24 of `flow_mask_index`
(covering groups 31/23/15/7).  The mark functions' updates are built to
preserve the iff, but reset does not establish it. -/
theorem fq_codel_reset_breaks_mask_index_iff :
    ¬ mask_index_iff (fq_codel_reset qFull) := by
  intro h
  exact absurd ((h 0 (by norm_num)).2 (by decide)) (by decide)

/-- C5 is falsified as stated: in state `qStale` hashtable bucket 5
holds the reference `1` to flow slot 0; a dequeue that drains slot 0
with packet `packet0` (whose two hashes are 0 and 1024) clears only
buckets 0 and 1024, so bucket 5 still holds `0 + 1` afterwards — the
claim's "no hashtable bucket still holds the value s+1" fails even
though the slot's empty bit is set. -/
theorem fq_codel_dequeue_drain_counterexample :
    ¬(((fq_codel_dequeue_drain qStale 0 packet0).empty_flow_mask 0).testBit 31 = true ∧
      ∀ b : Int, (fq_codel_dequeue_drain qStale 0 packet0).hashtable b ≠ 0 + 1) := by
  intro h
  exact h.2 5 (by decide)

/-- C5 (amended): after a dequeue drains flow slot `s`, the slot's bit
in the empty bitmask is set, and of the hashtable only the two buckets
designated by the just-dequeued packet's hashes are touched: neither
`hashtable[h1]` nor `hashtable[h2]` holds `s + 1` any more, while every
other bucket is left unchanged — so a stale reference to `s` installed
under a different packet's hashes (e.g. by `cuckoo_rehash` or a merged
flow) may survive the drain. -/
theorem fq_codel_dequeue_drain_clears_designated (q : FqState) (s : Nat) (skb : Packet)
    (hN : 0 < q.flows_cnt) (hN2 : q.flows_cnt < U32) :
    ((fq_codel_dequeue_drain q s skb).empty_flow_mask (s / 32)).testBit
        (32 - (s % 32 + 1)) = true ∧
    (fq_codel_dequeue_drain q s skb).hashtable
        ((fq_codel_hash_modified q skb 0 : Nat) : Int) ≠ s + 1 ∧
    (fq_codel_dequeue_drain q s skb).hashtable
        ((fq_codel_hash_modified q skb 1 : Nat) : Int) ≠ s + 1 ∧
    ∀ b : Int, b ≠ ((fq_codel_hash_modified q skb 0 : Nat) : Int) →
      b ≠ ((fq_codel_hash_modified q skb 1 : Nat) : Int) →
      (fq_codel_dequeue_drain q s skb).hashtable b = q.hashtable b := by
  have h0 := fq_codel_hash_modified_bounds q skb 0 hN hN2
  have h1 := fq_codel_hash_modified_bounds q skb 1 hN hN2
  have hnat : fq_codel_hash_modified q skb 0 ≠ fq_codel_hash_modified q skb 1 := by omega
  have hne : ((fq_codel_hash_modified q skb 0 : Nat) : Int) ≠
      ((fq_codel_hash_modified q skb 1 : Nat) : Int) := by exact_mod_cast hnat
  have hmm0 : fq_codel_hash_modified (mark_flow_as_empty q s) skb 0
      = fq_codel_hash_modified q skb 0 := rfl
  have hmm1 : fq_codel_hash_modified (mark_flow_as_empty q s) skb 1
      = fq_codel_hash_modified q skb 1 := rfl
  have hmt : (mark_flow_as_empty q s).hashtable = q.hashtable := rfl
  refine ⟨?_, ?_, ?_, ?_⟩
  · unfold fq_codel_dequeue_drain
    dsimp only
    split_ifs <;>
      · dsimp only [set_table, mark_flow_as_empty]
        rw [if_pos rfl]
        simp only [Nat.testBit_or, Nat.testBit_two_pow_self, Bool.or_true]
  · unfold fq_codel_dequeue_drain
    dsimp only
    rw [hmm0, hmm1]
    split_ifs with hc1 hc2 hc3
    · dsimp only [set_table]
      rw [hmt, Function.update_noteq hne, Function.update_same]
      omega
    · dsimp only [set_table]
      rw [hmt, Function.update_same]
      omega
    · dsimp only [set_table]
      rw [hmt, Function.update_noteq hne]
      rw [hmt] at hc1
      exact hc1
    · rw [hmt]
      rw [hmt] at hc1
      exact hc1
  · unfold fq_codel_dequeue_drain
    dsimp only
    rw [hmm0, hmm1]
    split_ifs with hc1 hc2 hc3
    · dsimp only [set_table]
      rw [Function.update_same]
      omega
    · dsimp only [set_table] at hc2 ⊢
      rw [hmt] at hc2 ⊢
      exact hc2
    · dsimp only [set_table]
      rw [Function.update_same]
      omega
    · rw [hmt]
      rw [hmt] at hc3
      exact hc3
  · intro b hb1 hb2
    unfold fq_codel_dequeue_drain
    dsimp only
    rw [hmm0, hmm1]
    split_ifs with hc1 hc2 hc3
    · dsimp only [set_table]
      rw [hmt, Function.update_noteq hb2, Function.update_noteq hb1]
    · dsimp only [set_table]
      rw [hmt, Function.update_noteq hb1]
    · dsimp only [set_table]
      rw [hmt, Function.update_noteq hb2]
    · rw [hmt]

/-- Witness for `fq_codel_dequeue_drain_clears_designated` at the
concrete stale-entry state `qStale`, draining slot 0 with `packet0`. -/
theorem fq_codel_dequeue_drain_clears_designated_witness :
    0 < qStale.flows_cnt ∧ qStale.flows_cnt < U32 ∧
    (((fq_codel_dequeue_drain qStale 0 packet0).empty_flow_mask (0 / 32)).testBit
        (32 - (0 % 32 + 1)) = true ∧
    (fq_codel_dequeue_drain qStale 0 packet0).hashtable
        ((fq_codel_hash_modified qStale packet0 0 : Nat) : Int) ≠ 0 + 1 ∧
    (fq_codel_dequeue_drain qStale 0 packet0).hashtable
        ((fq_codel_hash_modified qStale packet0 1 : Nat) : Int) ≠ 0 + 1 ∧
    ∀ b : Int, b ≠ ((fq_codel_hash_modified qStale packet0 0 : Nat) : Int) →
      b ≠ ((fq_codel_hash_modified qStale packet0 1 : Nat) : Int) →
      (fq_codel_dequeue_drain qStale 0 packet0).hashtable b = qStale.hashtable b) :=
  ⟨by decide, by decide,
    fq_codel_dequeue_drain_clears_designated qStale 0 packet0 (by decide) (by decide)⟩

/-- C6 is contradicted by the code: `get_next_empty_flow` has no NONE —
on the all-occupied state `qFull` (no set bit anywhere) it returns 0,
exactly the value it returns on `qSlot0Free`, the state in which flow
slot 0 is the one free slot; callers (`fq_codel_cuckoo_hash`) add 1 and
use flow slot 0, so a full table silently collides onto slot 0 instead
of being reported. -/
theorem get_next_empty_flow_full_indistinguishable :
    get_next_empty_flow qFull = 0 ∧ get_next_empty_flow qSlot0Free = 0 ∧
      (qSlot0Free.empty_flow_mask 0).testBit 31 = true ∧
      (qFull.empty_flow_mask 0).testBit 31 = false := by
  refine ⟨by decide, by decide, by decide, by decide⟩

/-- C8 is contradicted by the code: `fq_codel_change` stores
`min(1U, nla_get_u32(...))`, so any configured value `v ≥ 1` yields a
drop-batch cap of 1, not `v` (64 is the documented default intent,
`min` should be `max`). -/
theorem fq_codel_change_drop_batch_size_clamps :
    fq_codel_change_drop_batch_size 64 = 1 ∧
      fq_codel_change_drop_batch_size 64 ≠ 64 ∧
      fq_codel_change_drop_batch_size 2 = 1 ∧
      fq_codel_change_drop_batch_size 1 = 1 := by
  refine ⟨by decide, by decide, by decide, by decide⟩

theorem fq_codel_cuckoo_hash_pos (q : FqState) (skb : Packet) :
    1 ≤ (fq_codel_cuckoo_hash q skb).1 := by
  unfold fq_codel_cuckoo_hash
  dsimp only
  split
  · omega
  · split
    · split
      · omega
      · split
        · omega
        · omega
    · split
      · split
        · omega
        · split
          · omega
          · omega
      · split
        · omega
        · omega
        · split
          · omega
          · split
            · omega
            · omega

/-- C9: the displacement loop of `cuckoo_rehash` always terminates and
performs at most `flows_cnt` swaps: every loop step (one hashtable probe
with at most one `swap`) advances the loop counter `i`, which is bounded
by `flows_cnt`; the empty-head and empty-bucket exits only stop earlier,
leaving the last placement in the table.  And whatever the displacement
did, classification never fails: `fq_codel_cuckoo_hash` always returns a
value ≥ 1 (in the displacement branch, the allocated
`get_next_empty_flow + 1`). -/
theorem cuckoo_rehash_swap_bound (q : FqState) (skb : Packet) (value_to_insert : Nat) :
    (cuckoo_rehash q skb value_to_insert).2.2 ≤ q.flows_cnt ∧
      1 ≤ (fq_codel_cuckoo_hash q skb).1 := by
  constructor
  · have h := cuckoo_rehash_loop_swap_le q q.flows_cnt 0 value_to_insert skb q.hashtable
      (by omega)
    rw [cuckoo_rehash]
    omega
  · exact fq_codel_cuckoo_hash_pos q skb

/-- C10: a packet whose priority major number equals the qdisc handle
and whose minor number `m` satisfies `1 ≤ m ≤ flows_cnt` is classified
as `m` directly, with the state returned unchanged — no hashtable entry
installed, no slot allocated — and the result is the same whatever
external filter is installed and whatever the hashtable holds. -/
theorem fq_codel_classify_priority_direct (q : FqState) (handle : Nat)
    (filter : Option (Packet → Nat)) (skb : Packet)
    (hmaj : TC_H_MAJ skb.priority = handle)
    (hmin : 0 < TC_H_MIN skb.priority)
    (hcnt : TC_H_MIN skb.priority ≤ q.flows_cnt) :
    fq_codel_classify q handle filter skb = (TC_H_MIN skb.priority, q) := by
  unfold fq_codel_classify
  rw [if_pos ⟨hmaj, hmin, hcnt⟩]

/-- Witness for `fq_codel_classify_priority_direct`: priority word
`0x00010001` against handle `0x00010000` classifies to minor 1 with the
state (including its stale hashtable entry) untouched, even though an
external filter returning class 3 is installed. -/
theorem fq_codel_classify_priority_direct_witness :
    TC_H_MAJ packetPrio.priority = 65536 ∧ 0 < TC_H_MIN packetPrio.priority ∧
      TC_H_MIN packetPrio.priority ≤ qStale.flows_cnt ∧
      fq_codel_classify qStale 65536 (some fun _ => 3) packetPrio =
        (TC_H_MIN packetPrio.priority, qStale) :=
  ⟨by decide, by decide, by decide,
    fq_codel_classify_priority_direct qStale 65536 (some fun _ => 3) packetPrio
      (by decide) (by decide) (by decide)⟩
